import Mathlib

set_option maxRecDepth 4000

/-!
Shallow embedding of `src/progomatter.py` (the single-file Progomatter
application) and verification of its synchronization core: pattern-based
filtering (`should_ignore`, `should_include` over an `fnmatch`-style glob
matcher), the `os.walk`-based refresh pass (`refresh_files`) with flat-name
computation and collision handling, regex-based function extraction
(`extract_functions_from_file`), and the watchdog debounce handler
(`ProjectChangeHandler`).

Modelling conventions:
* paths are lists of segments relative to the project root;
* the staging directory is a name-keyed association list of artifacts
  (`stagePut` overwrites an existing name, as `shutil.copy2` / POSIX
  `Path.rename` do);
* filesystem failures that the source catches per file (`shutil.copy2`,
  `Path.rename`) are injected through per-file flags; `unlink` of a
  just-created copy is modelled as succeeding;
* wall-clock seconds (`time.time()`) are modelled as integers;
* recursions whose termination is not structural are implemented with an
  explicit fuel argument, instantiated with a provably sufficient bound, so
  that every definition evaluates by kernel reduction.
-/

namespace Progomatter

/-- Membership of a character in an `fnmatch` `[...]` class body (the body
never contains `]`).  A `lo-hi` pair is an inclusive range; a degenerate
range (`lo > hi`) matches nothing, consistent with CPython's translator
which removes empty ranges; a `-` that is first or last is a literal. -/
def classMem (c : Char) : List Char → Bool
  | a :: '-' :: b :: rest => (a ≤ c && c ≤ b) || classMem c rest
  | a :: rest => c == a || classMem c rest
  | [] => false

/-- Scan for the closing `]` of a character class, returning the body before
it and the remainder after it; `none` when the class is unterminated. -/
def scanClose : List Char → Option (List Char × List Char)
  | [] => none
  | ']' :: rest => some ([], rest)
  | c :: rest =>
    match scanClose rest with
    | some (b, r) => some (c :: b, r)
    | none => none

/-- Parse an `fnmatch` character class whose content starts right after the
opening `[`: an optional leading `!` negates, and a `]` right after that is a
literal member (CPython starts the search for the closing `]` past it).
Returns `(negated, body, rest)`, or `none` when unterminated. -/
def parseClass (s : List Char) : Option (Bool × List Char × List Char) :=
  match s with
  | '!' :: ']' :: rest =>
    match scanClose rest with
    | some (b, r) => some (true, ']' :: b, r)
    | none => none
  | '!' :: rest =>
    match scanClose rest with
    | some (b, r) => some (true, b, r)
    | none => none
  | ']' :: rest =>
    match scanClose rest with
    | some (b, r) => some (false, ']' :: b, r)
    | none => none
  | rest =>
    match scanClose rest with
    | some (b, r) => some (false, b, r)
    | none => none

/-- Fueled full-string shell-glob matcher (see `globMatch`). -/
def globMatchF : Nat → List Char → List Char → Bool
  | 0, _, _ => false
  | _ + 1, [], [] => true
  | _ + 1, [], _ :: _ => false
  | fuel + 1, '*' :: ps, [] => globMatchF fuel ps []
  | fuel + 1, '*' :: ps, c :: cs =>
    globMatchF fuel ps (c :: cs) || globMatchF fuel ('*' :: ps) cs
  | _ + 1, '?' :: _, [] => false
  | fuel + 1, '?' :: ps, _ :: cs => globMatchF fuel ps cs
  | _ + 1, '[' :: _, [] => false
  | fuel + 1, '[' :: ps, c :: cs =>
    (match parseClass ps with
     | some (neg, body, rest) => (classMem c body != neg) && globMatchF fuel rest cs
     | none => ('[' == c) && globMatchF fuel ps cs)
  | _ + 1, _ :: _, [] => false
  | fuel + 1, p1 :: ps, c :: cs => (p1 == c) && globMatchF fuel ps cs

/-- Full-string shell-glob matching, the semantics of
`fnmatch.translate` + `re.fullmatch`: `*` matches any (possibly empty)
sequence, `?` any single character, `[...]` a character class, every other
character itself; an unterminated `[` is a literal.  Every recursive step of
`globMatchF` shortens `pattern + string` by at least one, so the fuel below
is sufficient and the fueled matcher computes the unbounded recursion. -/
def globMatch (p s : List Char) : Bool :=
  globMatchF (p.length + s.length + 1) p s

/-- Embeds `fnmatch.fnmatch(name, pattern)` under POSIX `normcase`
(the identity): case-sensitive glob matching of the whole base name. -/
def fnmatch (name pattern : String) : Bool :=
  globMatch pattern.data name.data

/-- Embeds `Progomatter.should_include` (src/progomatter.py lines 839-849):
default-allow when the include list is empty, otherwise any-pattern
`fnmatch` on the file's base name.  The per-pattern `except` of the source
is unreachable here because the glob matcher is total. -/
def should_include (include_patterns : List String) (name : String) : Bool :=
  if include_patterns.isEmpty then true
  else include_patterns.any (fun pattern => fnmatch name pattern)

/-- Embeds `Progomatter.should_ignore` (src/progomatter.py lines 818-838) on
a path given by its segments relative to the project root.  The `.git`
segment test of the source inspects the absolute path; the project root is
taken to contain no `.git` segment.  The staging-directory `resolve` test is
always false here because the staging directory lives under the system temp
directory, outside the project root.  The opaque `pathspec` gitignore
matcher is an abstract `String → Bool` applied to the POSIX relative path,
with a trailing slash appended for directories. -/
def should_ignore (gitignore_spec : Option (String → Bool))
    (relParts : List String) (is_dir : Bool) : Bool :=
  if relParts.contains ".git" then true
  else
    match gitignore_spec with
    | none => false
    | some spec =>
      spec (String.intercalate "/" relParts ++ (if is_dir then "/" else ""))

/-- Embeds `pathlib.PurePath.suffix`: the final `.ext` of a file name, empty
when the last dot is absent, is the first character, or is the last
character. -/
def pathSuffix (name : String) : String :=
  let cs := name.data
  let n := cs.length
  match cs.reverse.findIdx? (· == '.') with
  | none => ""
  | some j =>
    let i := n - 1 - j
    if 0 < i ∧ i < n - 1 then String.mk (cs.drop i) else ""

/-- Embeds `str.lower()` for the ASCII extensions the source compares
against. -/
def lowerStr (s : String) : String :=
  String.mk (s.data.map Char.toLower)

example : pathSuffix "a.py" = ".py" := by decide
example : pathSuffix ".gitignore" = "" := by decide
example : pathSuffix "a.b.c" = ".c" := by decide
example : pathSuffix "a." = "" := by decide
example : fnmatch "main.py" "*.py" = true := by decide
example : fnmatch "notes.md" "*.py" = false := by decide
example : fnmatch "a1.py" "a[0-9].py" = true := by decide
example : fnmatch "ab.py" "a[!0-9].py" = true := by decide
example : fnmatch "a5.py" "a[!0-9].py" = false := by decide

/-! Function extraction (`extract_functions_from_file`, src lines 497-553).
Each of the four per-extension regular expressions is anchored at `^` in
`re.MULTILINE` mode and, `.` not matching newline, matches within a single
line, so `finditer` yields one hit per matching line, in document order; the
patterns are therefore modelled as per-line scanners.  The file content is
given already decoded (`errors='ignore'`), so the read never fails. -/

/-- Embeds the regex class `\w` (ASCII model). -/
def isWordChar (c : Char) : Bool := c.isAlphanum || c == '_'

/-- Embeds `str.split('\n')` on character lists (`''.split('\n') = ['']`). -/
def splitOnNl : List Char → List (List Char)
  | [] => [[]]
  | '\n' :: rest => [] :: splitOnNl rest
  | c :: rest =>
    match splitOnNl rest with
    | h :: t => (c :: h) :: t
    | [] => [[c]]

/-- Embeds `str.strip()` (whitespace on both ends removed). -/
def stripChars (cs : List Char) : List Char :=
  ((cs.dropWhile Char.isWhitespace).reverse.dropWhile Char.isWhitespace).reverse

/-- Embeds `str.strip()` on strings. -/
def pyStrip (s : String) : String := String.mk (stripChars s.data)

/-- Drop a literal keyword prefix; `none` when absent. -/
def dropPrefixChars : List Char → List Char → Option (List Char)
  | [], s => some s
  | k :: ks, c :: cs => if k == c then dropPrefixChars ks cs else none
  | _ :: _, [] => none

/-- Embeds `\s+`: require at least one whitespace character, consume all. -/
def requireSpace1 : List Char → Option (List Char)
  | c :: cs => if c.isWhitespace then some (cs.dropWhile Char.isWhitespace) else none
  | [] => none

/-- Embeds the lazy `(.*?)\):` tail: splits at the first occurrence of
`):`, returning the characters before it and those after. -/
def splitAtParenColon : List Char → Option (List Char × List Char)
  | ')' :: ':' :: rest => some ([], rest)
  | c :: rest =>
    match splitAtParenColon rest with
    | some (b, r) => some (c :: b, r)
    | none => none
  | [] => none

/-- Embeds the lazy `(.*?)\)` tail: splits at the first `)`. -/
def splitAtParen : List Char → Option (List Char × List Char)
  | ')' :: rest => some ([], rest)
  | c :: rest =>
    match splitAtParen rest with
    | some (b, r) => some (c :: b, r)
    | none => none
  | [] => none

/-- Embeds the shared suffix `(\w+)\s*\((.*?))` of the extraction patterns:
a nonempty word, optional whitespace, `(`, then the lazy parameter list up
to the given closer.  Returns the name, the parameters (stripped), and the
remainder after the closer. -/
def matchNameParams (colonAfterParen : Bool) (s : List Char) :
    Option (String × String × List Char) :=
  let nameCs := s.takeWhile isWordChar
  if nameCs.isEmpty then none
  else
    match (s.dropWhile isWordChar).dropWhile Char.isWhitespace with
    | '(' :: s1 =>
      match (if colonAfterParen then splitAtParenColon s1 else splitAtParen s1) with
      | some (params, rest) =>
        some (String.mk nameCs, String.mk (stripChars params), rest)
      | none => none
    | _ => none

/-- Embeds one `re.MULTILINE` line of `^\s*def\s+(\w+)\s*\((.*?)\):`
(the `.py` pattern), producing `def name(params)`. -/
def pyDefLine (l : List Char) : Option String :=
  match dropPrefixChars ['d', 'e', 'f'] (l.dropWhile Char.isWhitespace) with
  | none => none
  | some s1 =>
    match requireSpace1 s1 with
    | none => none
    | some s2 =>
      match matchNameParams true s2 with
      | some (n, params, _) => some ("def " ++ n ++ "(" ++ params ++ ")")
      | none => none

/-- Embeds one line of `^\s*func\s+(\w+)\s*\((.*?)\):` (the `.gd` pattern),
producing `func name(params)`. -/
def gdFuncLine (l : List Char) : Option String :=
  match dropPrefixChars ['f', 'u', 'n', 'c'] (l.dropWhile Char.isWhitespace) with
  | none => none
  | some s1 =>
    match requireSpace1 s1 with
    | none => none
    | some s2 =>
      match matchNameParams true s2 with
      | some (n, params, _) => some ("func " ++ n ++ "(" ++ params ++ ")")
      | none => none

/-- Embeds an optional keyword group `(?:kw\s+)?`: consumed only when the
keyword is followed by whitespace. -/
def optKeyword (kw : List Char) (s : List Char) : List Char :=
  match dropPrefixChars kw s with
  | some rest =>
    match requireSpace1 rest with
    | some r => r
    | none => s
  | none => s

/-- Embeds the optional Rust return-type group `(?:\s*->\s*([^{]+))?`
applied after the closing parenthesis; the captured text is stripped. -/
def rsReturnType (s : List Char) : Option String :=
  match (s.dropWhile Char.isWhitespace) with
  | '-' :: '>' :: s1 =>
    let ret := (s1.dropWhile Char.isWhitespace).takeWhile (· ≠ '{')
    if ret.isEmpty then none else some (String.mk (stripChars ret))
  | _ => none

/-- Embeds one line of
`^\s*(?:pub\s+)?(?:async\s+)?fn\s+(\w+)\s*\((.*?)\)(?:\s*->\s*([^{]+))?`
(the `.rs` pattern), producing `fn name(params)` or
`fn name(params) -> ret`. -/
def rsFnLine (l : List Char) : Option String :=
  let s1 := optKeyword ['p', 'u', 'b'] (l.dropWhile Char.isWhitespace)
  let s2 := optKeyword ['a', 's', 'y', 'n', 'c'] s1
  match dropPrefixChars ['f', 'n'] s2 with
  | none => none
  | some s3 =>
    match requireSpace1 s3 with
    | none => none
    | some s4 =>
      match matchNameParams false s4 with
      | some (n, params, rest) =>
        let base := "fn " ++ n ++ "(" ++ params ++ ")"
        match rsReturnType rest with
        | some ret => some (base ++ " -> " ++ ret)
        | none => some base
      | none => none

/-- Return types recognised by the `.gdshader` pattern
`(?:void|float|int|vec[234]|mat[234]|bool)`, in alternation order. -/
def shaderTypes : List (List Char) :=
  ["void", "float", "int", "vec2", "vec3", "vec4",
   "mat2", "mat3", "mat4", "bool"].map String.data

/-- Try each alternative of the shader type group: the branch succeeds only
when the type keyword is followed by whitespace (`\s+`), otherwise the next
alternative is tried (regex backtracking). -/
def tryShaderType : List (List Char) → List Char → Option (List Char)
  | [], _ => none
  | t :: ts, s =>
    match dropPrefixChars t s with
    | some rest =>
      match requireSpace1 rest with
      | some r => some r
      | none => tryShaderType ts s
    | none => tryShaderType ts s

/-- Embeds one line of
`^\s*(?:void|float|int|vec[234]|mat[234]|bool)\s+(\w+)\s*\((.*?)\)`
(the `.gdshader` pattern), producing `name(params)`. -/
def shaderFnLine (l : List Char) : Option String :=
  match tryShaderType shaderTypes (l.dropWhile Char.isWhitespace) with
  | none => none
  | some s1 =>
    match matchNameParams false s1 with
    | some (n, params, _) => some (n ++ "(" ++ params ++ ")")
    | none => none

/-- Dispatch of the per-extension line scanners used by
`extract_functions_from_file`; unsupported extensions scan nothing. -/
def lineSig (ext : String) (l : List Char) : Option String :=
  if ext = ".py" then pyDefLine l
  else if ext = ".gd" then gdFuncLine l
  else if ext = ".rs" then rsFnLine l
  else if ext = ".gdshader" then shaderFnLine l
  else none

/-- Embeds `Progomatter.extract_functions_from_file` (src lines 497-553):
per-extension regex scanning of the decoded file content, one candidate per
line (see the section comment above); any other extension yields `[]`. -/
def extract_functions_from_file (name : String) (content : String) : List String :=
  let ext := lowerStr (pathSuffix name)
  let lines := splitOnNl content.data
  if ext = ".py" then lines.filterMap pyDefLine
  else if ext = ".gd" then lines.filterMap gdFuncLine
  else if ext = ".rs" then lines.filterMap rsFnLine
  else if ext = ".gdshader" then lines.filterMap shaderFnLine
  else []

example : extract_functions_from_file "m.py" "import os\ndef hello(x, y):\n    pass\n"
    = ["def hello(x, y)"] := by decide
example : extract_functions_from_file "m.PY" "def f():\n" = ["def f()"] := by decide
example : extract_functions_from_file "m.md" "def hello(x):\n" = [] := by decide
example : extract_functions_from_file "m.rs" "pub async fn go(a: u8) -> u8 \x7b\n"
    = ["fn go(a: u8) -> u8"] := by decide
example : extract_functions_from_file "m.rs" "fn go(a: u8) \x7b\n" = ["fn go(a: u8)"] := by decide
example : extract_functions_from_file "s.gdshader" "void fragment() \x7b\n"
    = ["fragment()"] := by decide
example : extract_functions_from_file "m.gd" "func _ready():\n" = ["func _ready()"] := by decide

/-! Debounced change watching (`ProjectChangeHandler`, src lines 55-78). -/

/-- Embeds the `ProjectChangeHandler` state: `last_event_time`, initially
`0`, which also encodes that no signal has been forwarded yet. -/
structure ProjectChangeHandler where
  last_event_time : Int
deriving DecidableEq

/-- Embeds `debounce_delay = 1.0` (one second). -/
def debounce_delay : Int := 1

/-- Embeds `ProjectChangeHandler.schedule_refresh` (src lines 62-70):
returns the updated handler and whether `"refresh"` was put on the queue. -/
def schedule_refresh (h : ProjectChangeHandler) (current_time : Int) :
    ProjectChangeHandler × Bool :=
  if current_time - h.last_event_time ≥ debounce_delay ∨ h.last_event_time = 0 then
    ({ last_event_time := current_time }, true)
  else (h, false)

/-- A raw watchdog filesystem event: directory flag, source path, and the
wall-clock time at which the handler processes it. -/
structure FSEvent where
  is_directory : Bool
  src_path : String
  time : Int

/-- Substring test, embedding Python's `needle in path_str`. -/
def containsSub (needle : List Char) : List Char → Bool
  | [] => needle.isEmpty
  | c :: rest => needle.isPrefixOf (c :: rest) || containsSub needle rest

/-- Embeds `ProjectChangeHandler.on_any_event` (src lines 71-78): only
non-directory events whose path contains neither `.git` nor the staging
directory name reach the debouncer. -/
def on_any_event (h : ProjectChangeHandler) (e : FSEvent) :
    ProjectChangeHandler × Bool :=
  if !e.is_directory
      && !(containsSub ".git".data e.src_path.data)
      && !(containsSub "progomatter_files".data e.src_path.data) then
    schedule_refresh h e.time
  else (h, false)

/-- One step of the event fold: feed the event to the handler and count a
forwarded signal. -/
def eventStep (acc : ProjectChangeHandler × Nat) (e : FSEvent) :
    ProjectChangeHandler × Nat :=
  let r := on_any_event acc.1 e
  (r.1, acc.2 + (if r.2 then 1 else 0))

/-- Fold a sequence of events through the handler, counting how many
`"refresh"` signals are forwarded to the queue. -/
def processEvents (h : ProjectChangeHandler) (es : List FSEvent) :
    ProjectChangeHandler × Nat :=
  es.foldl eventStep (h, 0)

/-! Data model of a refresh pass (`refresh_files`, src lines 895-1090). -/

/-- Embeds the four option checkboxes read at the start of a pass
(src lines 921-924). -/
structure Options where
  create_paths_md : Bool
  extract_functions : Bool
  copy_individual_files : Bool
  convert_copied_files : Bool
deriving DecidableEq, Repr

/-- Embeds `do_extract_functions = self.extract_functions_var.get() and
do_paths_md` (line 922). -/
def Options.do_extract (o : Options) : Bool :=
  o.extract_functions && o.create_paths_md

/-- Embeds `do_convert = self.convert_copied_files_var.get() and do_copy`
(line 924). -/
def Options.do_convert (o : Options) : Bool :=
  o.convert_copied_files && o.copy_individual_files

/-- A regular file of the source tree: base name, decoded content, and two
environment flags injecting the per-file failures the source catches
(`shutil.copy2` raising, `Path.rename` raising). -/
structure SrcFile where
  name : String
  content : String
  copyFails : Bool
  renameFails : Bool
deriving DecidableEq, Repr

/-- A directory listing of the source tree, in enumeration order: an entry
is either a regular file or a subdirectory with its own listing.  (A single
non-nested inductive so that listings compare decidably and weigh
structurally.) -/
inductive FSTree where
  | leaf
  | fileCons (f : SrcFile) (rest : FSTree)
  | dirCons (name : String) (children : FSTree) (rest : FSTree)
deriving DecidableEq, Repr

/-- Concatenation of two directory listings. -/
def FSTree.append : FSTree → FSTree → FSTree
  | .leaf, t => t
  | .fileCons f rest, t => .fileCons f (rest.append t)
  | .dirCons n cs rest, t => .dirCons n cs (rest.append t)

/-- Structural size of a listing, used as walk fuel. -/
def treeWeight : FSTree → Nat
  | .leaf => 1
  | .fileCons _ rest => 1 + treeWeight rest
  | .dirCons _ cs rest => 1 + treeWeight cs + treeWeight rest

/-- Kind of an entry materialized in the staging directory.  The
`snapshotDoc` and `structureDoc` kinds name the content-snapshot and
structure-only documents the specification describes; they exist in this
type so that their presence or absence among a pass's outputs can be
stated. -/
inductive ArtifactKind where
  | contextCopy
  | manifestDoc
  | flatCopy
  | snapshotDoc
  | structureDoc
deriving DecidableEq, Repr

/-- An entry of the staging directory: file name, kind, byte content. -/
structure Artifact where
  name : String
  kind : ArtifactKind
  content : String
deriving DecidableEq, Repr

/-- Write a file into the staging directory: overwrites an existing entry of
the same name (as `shutil.copy2` and `open(..., "w")` do), otherwise
appends. -/
def stagePut (staged : List Artifact) (a : Artifact) : List Artifact :=
  if staged.any (fun b => b.name == a.name) then
    staged.map (fun b => if b.name == a.name then a else b)
  else staged ++ [a]

/-- Embeds `Path.unlink`: remove the entry with the given name. -/
def stageDel (staged : List Artifact) (n : String) : List Artifact :=
  staged.filter (fun b => b.name ≠ n)

/-- Embeds POSIX `Path.rename`: move an entry to a new name, silently
replacing an existing entry of that name. -/
def stageRename (staged : List Artifact) (oldName newName : String) : List Artifact :=
  match staged.find? (fun b => b.name == oldName) with
  | some a => stagePut (stageDel staged oldName) { a with name := newName }
  | none => staged

/-- Per-project inputs of a refresh pass: the identification shown in the
manifest header, the compiled filter state (`self.gitignore_spec`,
`self.include_patterns`), the notes store (`self.file_notes`, keys are
project-relative POSIX paths), and the option states. -/
structure RefreshConfig where
  project_name : String
  directory : String
  gitignore_spec : Option (String → Bool)
  include_patterns : List String
  file_notes : List (String × String)
  opts : Options

/-- The mutable state of one refresh pass: the markdown accumulator
`paths_md_lines`, the per-pass written-name set `files_in_temp`, the staging
directory contents, and the summary counters (src lines 926-929). -/
structure RefreshState where
  paths_md_lines : List String
  files_in_temp : List String
  staged : List Artifact
  copied_count : Nat
  ignored_git_count : Nat
  ignored_incl_count : Nat
  converted_count : Nat
  read_error_count : Nat
  collision_skips : Nat
  md_entries : Nat
deriving DecidableEq, Repr

/-- State at the start of a pass, after the staging reset. -/
def initState : RefreshState :=
  { paths_md_lines := []
    files_in_temp := []
    staged := []
    copied_count := 0
    ignored_git_count := 0
    ignored_incl_count := 0
    converted_count := 0
    read_error_count := 0
    collision_skips := 0
    md_entries := 0 }

/-- Add `k` to the `ignored_git_count` counter. -/
def bumpIgnored (k : Nat) (st : RefreshState) : RefreshState :=
  { st with ignored_git_count := st.ignored_git_count + k }

/-- Markdown block appended for a file note (src lines 956-962): blank
line, `**Note:**`, each stripped note line quoted, blank line. -/
def noteLines (note : String) : List String :=
  ["", "**Note:**"]
    ++ (splitOnNl (stripChars note.data)).map (fun line => "> " ++ String.mk line)
    ++ [""]

/-- Extensions for which the pass attempts function extraction
(src line 967). -/
def supportedExts : List String := [".py", ".gd", ".rs", ".gdshader"]

/-- Embeds the markdown-section part of the per-file loop body
(src lines 952-976): heading, optional note, optional function list, blank
separator; increments `md_entries`. -/
def mdSection (cfg : RefreshConfig) (rel_path_str : String) (f : SrcFile)
    (st : RefreshState) : RefreshState :=
  let l1 := st.paths_md_lines ++ ["### `" ++ rel_path_str ++ "`"]
  let l2 :=
    match cfg.file_notes.lookup rel_path_str with
    | some note => if pyStrip note ≠ "" then l1 ++ noteLines note else l1
    | none => l1
  let l3 :=
    if cfg.opts.do_extract
        && supportedExts.contains (lowerStr (pathSuffix f.name)) then
      let functions := extract_functions_from_file f.name f.content
      if functions.isEmpty then l2
      else l2 ++ ["", "**Functions:**"]
             ++ functions.map (fun func => "- `" ++ func ++ "`")
    else l2
  { st with paths_md_lines := l3 ++ [""], md_entries := st.md_entries + 1 }

/-- Embeds `path_prefix = "-".join(relative_path.parts[:-1])` followed by
`unique_flat_filename` (src lines 979-982). -/
def uniqueFlatName (relDir : List String) (filename : String) : String :=
  let path_prefix := String.intercalate "-" relDir
  if path_prefix ≠ "" then path_prefix ++ "-" ++ filename else filename

/-- Embeds `target_flat_filename` (src lines 983-987). -/
def targetFlatName (do_convert : Bool) (relDir : List String) (filename : String) : String :=
  if do_convert then uniqueFlatName relDir filename ++ ".txt"
  else uniqueFlatName relDir filename

/-- Embeds the individual-copy part of the per-file loop body
(src lines 978-1029): collision check against `files_in_temp`, `copy2`,
optional rename to `.txt`, error compensation.  On a `copy2` failure the
source executes `copied_count = max(0, copied_count - 1)` — although the
increment for this file never happened; truncated `Nat` subtraction
reproduces that exactly — and then
`if source_copy_path.exists(): source_copy_path.unlink()`, which removes
whatever sits at the intermediate path, including a pre-existing staging
entry of that name (the failed `copy2` itself is modelled as creating
nothing, and the unlink as succeeding). -/
def copyStep (cfg : RefreshConfig) (relDir : List String) (f : SrcFile)
    (st : RefreshState) : RefreshState :=
  let unique_flat_filename := uniqueFlatName relDir f.name
  let target_flat_filename := targetFlatName cfg.opts.do_convert relDir f.name
  if st.files_in_temp.contains target_flat_filename then
    { st with collision_skips := st.collision_skips + 1 }
  else if f.copyFails then
    { st with read_error_count := st.read_error_count + 1,
              copied_count := st.copied_count - 1,
              staged := stageDel st.staged unique_flat_filename }
  else
    let st1 := { st with
      staged := stagePut st.staged ⟨unique_flat_filename, .flatCopy, f.content⟩,
      copied_count := st.copied_count + 1 }
    if cfg.opts.do_convert then
      if f.renameFails then
        { st1 with copied_count := st1.copied_count - 1,
                   staged := stageDel st1.staged unique_flat_filename }
      else
        { st1 with
          staged := stageRename st1.staged unique_flat_filename target_flat_filename,
          converted_count := st1.converted_count + 1,
          files_in_temp := st1.files_in_temp ++ [target_flat_filename] }
    else
      { st1 with files_in_temp := st1.files_in_temp ++ [unique_flat_filename] }

/-- Embeds the per-file loop body (src lines 940-1029): the ignore filter,
the include filter, then the markdown section and the individual copy,
driven by the option flags.  `relDir` is the visited directory's path
relative to the source root. -/
def processFile (cfg : RefreshConfig) (relDir : List String) (f : SrcFile)
    (st : RefreshState) : RefreshState :=
  if should_ignore cfg.gitignore_spec (relDir ++ [f.name]) false then
    { st with ignored_git_count := st.ignored_git_count + 1 }
  else if !cfg.include_patterns.isEmpty
      && !(should_include cfg.include_patterns f.name) then
    { st with ignored_incl_count := st.ignored_incl_count + 1 }
  else
    let rel_path_str := String.intercalate "/" (relDir ++ [f.name])
    let st1 := if cfg.opts.create_paths_md then mdSection cfg rel_path_str f st else st
    if cfg.opts.copy_individual_files then copyStep cfg relDir f st1 else st1

/-- Child directories of a directory listing, in listing order (the `dirs`
component of an `os.walk` triple). -/
def dirsOf : FSTree → List (String × FSTree)
  | .leaf => []
  | .fileCons _ rest => dirsOf rest
  | .dirCons n cs rest => (n, cs) :: dirsOf rest

/-- Files of a directory listing, in listing order (the `files` component
of an `os.walk` triple). -/
def filesOf : FSTree → List SrcFile
  | .leaf => []
  | .fileCons f rest => f :: filesOf rest
  | .dirCons _ _ rest => filesOf rest

/-- Termination fuel for the walk: total size of the pending directory
listings. -/
def pendingWeight : List (List String × FSTree) → Nat
  | [] => 0
  | (_, cs) :: rest => treeWeight cs + pendingWeight rest

/-- Total size of the listings attached to a `dirsOf` result. -/
def dirsWeight : List (String × FSTree) → Nat
  | [] => 0
  | (_, cs) :: rest => treeWeight cs + dirsWeight rest

/-- Fueled work-list DFS embedding the `os.walk(source_dir, topdown=True)`
loop of `refresh_files` (src lines 932-1029): the head entry is the
directory currently visited (its path segments and children); its child
directories are filtered through the ignore test before descent and the
removed count is added to `ignored_git_count`; its files are then processed
in order; finally the surviving child directories are walked depth-first in
order.  See `walkLoop` for the fuel instantiation. -/
def walkLoopF (cfg : RefreshConfig) :
    Nat → List (List String × FSTree) → RefreshState → RefreshState
  | _, [], st => st
  | 0, _ :: _, st => st
  | fuel + 1, (relDir, children) :: rest, st =>
    let ds := dirsOf children
    let kept := ds.filter
      (fun d => !(should_ignore cfg.gitignore_spec (relDir ++ [d.1]) true))
    let st1 := bumpIgnored (ds.length - kept.length) st
    let st2 := (filesOf children).foldl (fun s f => processFile cfg relDir f s) st1
    walkLoopF cfg fuel (kept.map (fun d => (relDir ++ [d.1], d.2)) ++ rest) st2

/-- The walk with its fuel instantiated: every iteration strictly decreases
`pendingWeight` (proved in `walkLoopF_congr` below), so this fuel computes
the unbounded work-list recursion. -/
def walkLoop (cfg : RefreshConfig) (l : List (List String × FSTree))
    (st : RefreshState) : RefreshState :=
  walkLoopF cfg (pendingWeight l) l st

/-- The source root of a pass as `refresh_files` validates it
(src lines 907-919): the directory key may be unset, the path may not be an
existing directory, or it is a directory with a listing and an optional
`read this first.md` content.  A missing or non-directory root has no files
beneath it, in particular no context file. -/
inductive SourceRoot where
  | unset
  | missing
  | ok (children : FSTree) (context : Option String)

/-- Embeds `clear_temp_folder` (src lines 851-866): every entry of the
staging directory is deleted (per-item deletion failures are logged and
tolerated; they are modelled as not occurring). -/
def clear_temp_folder (_staging : List Artifact) : List Artifact := []

/-- Name of the context file copied into staging (src line 771). -/
def contextFileName : String := "read this first.md"

/-- Name of the manifest document (src line 1035). -/
def mdFileName : String := "project_file_names_and_locations.md"

/-- Embeds the manifest document written at src lines 1038-1044: header,
project name, root, separator, then the accumulated per-file lines. -/
def mdDocument (cfg : RefreshConfig) (lines : List String) : String :=
  "# Project File Locations\n\n"
    ++ "**Project:** " ++ cfg.project_name ++ "\n\n"
    ++ "**Root:** `" ++ cfg.directory ++ "`\n\n"
    ++ "---\n\n"
    ++ "## Files\n\n"
    ++ String.intercalate "\n" lines

/-- Embeds `Progomatter.refresh_files` (src lines 895-1090) for a selected
project: clear the staging directory, copy the context file if it exists,
validate the source root (aborting with a user-visible error when it is
unset or not an existing directory), walk and filter the tree driving the
enabled outputs, then write the manifest document if enabled and nonempty.
Returns the final pass state together with the structural error, if any. -/
def refresh_files (cfg : RefreshConfig) (root : SourceRoot)
    (staging : List Artifact) : RefreshState × Option String :=
  let st0 : RefreshState := { initState with staged := clear_temp_folder staging }
  let st0 :=
    match root with
    | .ok _ (some ctx) =>
      { st0 with staged := stagePut st0.staged ⟨contextFileName, .contextCopy, ctx⟩ }
    | _ => st0
  match root with
  | .unset => (st0, some "Error: Project directory not set.")
  | .missing =>
    (st0, some ("Error: Source directory not found: " ++ cfg.directory))
  | .ok children _ =>
    let st1 := walkLoop cfg [([], children)] st0
    if cfg.opts.create_paths_md && !st1.paths_md_lines.isEmpty then
      ({ st1 with
          staged := stagePut st1.staged
            ⟨mdFileName, .manifestDoc, mdDocument cfg st1.paths_md_lines⟩ },
       none)
    else (st1, none)

/-- Names of all entries currently in the staging directory. -/
def stagedNames (l : List Artifact) : List String := l.map Artifact.name

/-- Names of the flattened file copies currently in the staging directory. -/
def flatNames (l : List Artifact) : List String :=
  (l.filter (fun a => a.kind == ArtifactKind.flatCopy)).map Artifact.name

/-- The kinds of artifacts the pass can actually produce: a context-file
copy, the paths manifest, or a flattened copy. -/
def allowedKind (k : ArtifactKind) : Prop :=
  k = ArtifactKind.contextCopy ∨ k = ArtifactKind.manifestDoc
    ∨ k = ArtifactKind.flatCopy

/-- Every staged artifact is of an `allowedKind`. -/
def stagedKindsOk (l : List Artifact) : Prop :=
  ∀ a ∈ l, allowedKind a.kind

/-! Concrete fixtures used to evaluate the model on the scenarios the
specification describes. -/

/-- A project with every output option enabled, no `.gitignore`, no
include patterns, no notes. -/
def exCfgAll : RefreshConfig :=
  { project_name := "demo", directory := "/home/u/demo", gitignore_spec := none,
    include_patterns := [], file_notes := [], opts := ⟨true, true, true, true⟩ }

/-- A project that only copies individual files (no conversion). -/
def exCfgCopy : RefreshConfig :=
  { project_name := "demo", directory := "/home/u/demo", gitignore_spec := none,
    include_patterns := [], file_notes := [], opts := ⟨false, false, true, false⟩ }

/-- A project that copies individual files and converts them to `.txt`. -/
def exCfgCopyConvert : RefreshConfig :=
  { project_name := "demo", directory := "/home/u/demo", gitignore_spec := none,
    include_patterns := [], file_notes := [], opts := ⟨false, false, true, true⟩ }

/-- A project generating only the paths manifest, with `.include`
containing only `*.py`. -/
def exCfgIncludePy : RefreshConfig :=
  { project_name := "demo", directory := "/home/u/demo", gitignore_spec := none,
    include_patterns := ["*.py"], file_notes := [], opts := ⟨true, false, false, false⟩ }

/-- The specification's structure example: `src/main.py` and `src/util.py`. -/
def exTreeSrc : FSTree :=
  .dirCons "src"
    (.fileCons ⟨"main.py", "def main():\n", false, false⟩
      (.fileCons ⟨"util.py", "def util(x):\n", false, false⟩ .leaf))
    .leaf

/-- The specification's flattening example: `a/x.txt` and `b/x.txt`. -/
def exTreeDistinct : FSTree :=
  .dirCons "a" (.fileCons ⟨"x.txt", "one", false, false⟩ .leaf)
    (.dirCons "b" (.fileCons ⟨"x.txt", "two", false, false⟩ .leaf) .leaf)

/-- Two files collapsing to the same computed name `a-x.txt`: the root file
`a-x.txt` and `a/x.txt`. -/
def exTreeSameName : FSTree :=
  .fileCons ⟨"a-x.txt", "first", false, false⟩
    (.dirCons "a" (.fileCons ⟨"x.txt", "second", false, false⟩ .leaf) .leaf)

/-- With conversion enabled, the root files `a-b` and `a-b.txt` and the
nested file `a/b`: `a-b` and `a/b` both compute the destination `a-b.txt`,
while the intermediate (pre-rename) copy of `a-b.txt` is also named
`a-b.txt`. -/
def exTreeRenameClash : FSTree :=
  .fileCons ⟨"a-b", "first", false, false⟩
    (.fileCons ⟨"a-b.txt", "second", false, false⟩
      (.dirCons "a" (.fileCons ⟨"b", "third", false, false⟩ .leaf) .leaf))

/-- One file whose copy succeeds followed by one whose `copy2` raises. -/
def exTreeCopyError : FSTree :=
  .fileCons ⟨"good.txt", "g", false, false⟩
    (.fileCons ⟨"bad.txt", "b", true, false⟩ .leaf)

/-- One `.py` file and one `.md` file (include-pattern scenario). -/
def exTreePyMd : FSTree :=
  .fileCons ⟨"main.py", "print(1)\n", false, false⟩
    (.fileCons ⟨"notes.md", "hello\n", false, false⟩ .leaf)

/-- A project whose gitignore matcher ignores exactly the directory
`build`. -/
def exCfgGitignore : RefreshConfig :=
  { project_name := "demo", directory := "/home/u/demo",
    gitignore_spec := some (fun s => s == "build/"),
    include_patterns := [], file_notes := [], opts := ⟨true, false, false, false⟩ }

/-! Walk infrastructure lemmas: the fuel chosen in `walkLoop` is sufficient,
so the work-list recursion satisfies clean unfolding equations. -/

theorem treeWeight_pos (t : FSTree) : 1 ≤ treeWeight t := by
  cases t <;> simp only [treeWeight] <;> omega

theorem dirsWeight_filter_le (p : String × FSTree → Bool) :
    ∀ l, dirsWeight (l.filter p) ≤ dirsWeight l := by
  intro l
  induction l with
  | nil => simp [dirsWeight]
  | cons hd tl ih =>
    obtain ⟨n, cs⟩ := hd
    by_cases hp : p (n, cs)
    · simp [List.filter, hp, dirsWeight]; omega
    · simp [List.filter, hp, dirsWeight]; omega

theorem dirsWeight_dirsOf_lt : ∀ t : FSTree, dirsWeight (dirsOf t) < treeWeight t := by
  intro t
  induction t with
  | leaf => simp [dirsOf, dirsWeight, treeWeight]
  | fileCons f rest ih => simp [dirsOf, treeWeight]; omega
  | dirCons n cs rest ihc ihr => simp [dirsOf, dirsWeight, treeWeight]; omega

theorem pendingWeight_append (a b : List (List String × FSTree)) :
    pendingWeight (a ++ b) = pendingWeight a + pendingWeight b := by
  induction a with
  | nil => simp [pendingWeight]
  | cons hd tl ih =>
    obtain ⟨rel, cs⟩ := hd
    simp [pendingWeight, ih]
    omega

theorem pendingWeight_map_dirs (g : String → List String) :
    ∀ l, pendingWeight (l.map (fun d => (g d.1, d.2))) = dirsWeight l := by
  intro l
  induction l with
  | nil => simp [pendingWeight, dirsWeight]
  | cons hd tl ih =>
    obtain ⟨n, cs⟩ := hd
    simp [pendingWeight, dirsWeight, ih]

theorem pendingWeight_step (relDir : List String) (cs : FSTree)
    (tl : List (List String × FSTree)) (p : String × FSTree → Bool) :
    pendingWeight (((dirsOf cs).filter p).map (fun d => (relDir ++ [d.1], d.2)) ++ tl)
      < treeWeight cs + pendingWeight tl := by
  rw [pendingWeight_append, pendingWeight_map_dirs (fun n => relDir ++ [n])]
  have h1 := dirsWeight_filter_le p (dirsOf cs)
  have h2 := dirsWeight_dirsOf_lt cs
  omega

theorem walkLoopF_congr (cfg : RefreshConfig) :
    ∀ f1 f2 l st, pendingWeight l ≤ f1 → pendingWeight l ≤ f2 →
      walkLoopF cfg f1 l st = walkLoopF cfg f2 l st := by
  intro f1
  induction f1 with
  | zero =>
    intro f2 l st h1 _
    cases l with
    | nil => cases f2 <;> rfl
    | cons hd tl =>
      exfalso
      obtain ⟨rel, cs⟩ := hd
      have := treeWeight_pos cs
      simp [pendingWeight] at h1
      omega
  | succ f1 ih =>
    intro f2 l st h1 h2
    cases l with
    | nil => cases f2 <;> rfl
    | cons hd tl =>
      obtain ⟨rel, cs⟩ := hd
      cases f2 with
      | zero =>
        exfalso
        have := treeWeight_pos cs
        simp [pendingWeight] at h2
        omega
      | succ f2 =>
        simp only [walkLoopF]
        apply ih
        · have := pendingWeight_step rel cs tl
            (fun d => !(should_ignore cfg.gitignore_spec (rel ++ [d.1]) true))
          simp [pendingWeight] at h1
          omega
        · have := pendingWeight_step rel cs tl
            (fun d => !(should_ignore cfg.gitignore_spec (rel ++ [d.1]) true))
          simp [pendingWeight] at h2
          omega

theorem walkLoop_nil (cfg : RefreshConfig) (st : RefreshState) :
    walkLoop cfg [] st = st := rfl

/-- One `os.walk` iteration: visiting a directory prunes its ignored child
directories (counting them), processes its files, then descends into the
surviving children in order. -/
theorem walkLoop_cons (cfg : RefreshConfig) (relDir : List String)
    (children : FSTree) (rest : List (List String × FSTree)) (st : RefreshState) :
    walkLoop cfg ((relDir, children) :: rest) st =
      walkLoop cfg
        (((dirsOf children).filter
            (fun d => !(should_ignore cfg.gitignore_spec (relDir ++ [d.1]) true))).map
          (fun d => (relDir ++ [d.1], d.2)) ++ rest)
        ((filesOf children).foldl (fun s f => processFile cfg relDir f s)
          (bumpIgnored ((dirsOf children).length -
              ((dirsOf children).filter
                (fun d => !(should_ignore cfg.gitignore_spec (relDir ++ [d.1]) true))).length)
            st)) := by
  unfold walkLoop
  have hpos := treeWeight_pos children
  obtain ⟨n, hn⟩ : ∃ n, pendingWeight ((relDir, children) :: rest) = n + 1 :=
    ⟨treeWeight children + pendingWeight rest - 1, by simp [pendingWeight]; omega⟩
  rw [hn]
  simp only [walkLoopF]
  apply walkLoopF_congr
  · have := pendingWeight_step relDir children rest
      (fun d => !(should_ignore cfg.gitignore_spec (relDir ++ [d.1]) true))
    simp [pendingWeight] at hn
    omega
  · exact le_refl _

theorem foldl_processFile_preserve (cfg : RefreshConfig) (P : RefreshState → Prop)
    (relDir : List String)
    (hfile : ∀ f st, P st → P (processFile cfg relDir f st)) :
    ∀ (fs : List SrcFile) st, P st →
      P (fs.foldl (fun s f => processFile cfg relDir f s) st) := by
  intro fs
  induction fs with
  | nil => intro st h; simpa
  | cons f tl ih => intro st h; exact ih _ (hfile f st h)

/-- Any per-file-step invariant that also survives counter bumps is an
invariant of the whole walk. -/
theorem walkLoop_preserve (cfg : RefreshConfig) (P : RefreshState → Prop)
    (hfile : ∀ relDir f st, P st → P (processFile cfg relDir f st))
    (hbump : ∀ k st, P st → P (bumpIgnored k st)) :
    ∀ l st, P st → P (walkLoop cfg l st) := by
  have hF : ∀ fuel l st, P st → P (walkLoopF cfg fuel l st) := by
    intro fuel
    induction fuel with
    | zero => intro l st h; cases l <;> simpa [walkLoopF]
    | succ n ih =>
      intro l st h
      cases l with
      | nil => simpa [walkLoopF]
      | cons hd tl =>
        obtain ⟨rel, cs⟩ := hd
        simp only [walkLoopF]
        exact ih _ _
          (foldl_processFile_preserve cfg P rel (fun f s => hfile rel f s) _ _
            (hbump _ _ h))
  intro l st h
  exact hF _ l st h

/-! Further structural lemmas about the walk and the staging directory. -/

theorem dirsOf_append : ∀ a b : FSTree, dirsOf (a.append b) = dirsOf a ++ dirsOf b := by
  intro a b
  induction a with
  | leaf => rfl
  | fileCons f rest ih => simpa [FSTree.append, dirsOf] using ih
  | dirCons n cs rest ihc ihr => simpa [FSTree.append, dirsOf] using ihr

theorem filesOf_append : ∀ a b : FSTree, filesOf (a.append b) = filesOf a ++ filesOf b := by
  intro a b
  induction a with
  | leaf => rfl
  | fileCons f rest ih => simpa [FSTree.append, filesOf] using ih
  | dirCons n cs rest ihc ihr => simpa [FSTree.append, filesOf] using ihr

theorem bumpIgnored_comp (j k : Nat) (st : RefreshState) :
    bumpIgnored k (bumpIgnored j st) = bumpIgnored (j + k) st := by
  simp [bumpIgnored, Nat.add_assoc]

/-! Claim theorems. -/

/-- C3: a directory matching an ignore rule is pruned at the directory
boundary: walking a listing that contains the ignored directory `dname`
(with an arbitrary subtree beneath it) produces exactly the same pass state
as walking the listing with that directory removed, except that
`ignored_git_count` is incremented once — so the walk never descends into
the subtree, nothing beneath it reaches any output, and the counter
reflects one increment per pruned child directory, not one per descendant
file. -/
theorem c3_pruned_directory (cfg : RefreshConfig) (relDir : List String)
    (dname : String) (sub : FSTree) (xs ys : FSTree)
    (rest : List (List String × FSTree)) (st : RefreshState)
    (hig : should_ignore cfg.gitignore_spec (relDir ++ [dname]) true = true) :
    walkLoop cfg ((relDir, xs.append (.dirCons dname sub ys)) :: rest) st
      = walkLoop cfg ((relDir, xs.append ys) :: rest) (bumpIgnored 1 st) := by
  rw [walkLoop_cons, walkLoop_cons]
  have hdirs : dirsOf (xs.append (.dirCons dname sub ys))
      = dirsOf xs ++ (dname, sub) :: dirsOf ys := by
    rw [dirsOf_append]; rfl
  have hdirs2 : dirsOf (xs.append ys) = dirsOf xs ++ dirsOf ys := dirsOf_append xs ys
  have hfiles : filesOf (xs.append (.dirCons dname sub ys)) = filesOf (xs.append ys) := by
    rw [filesOf_append, filesOf_append]; rfl
  have hpd : (!(should_ignore cfg.gitignore_spec (relDir ++ [dname]) true)) = false := by
    simp [hig]
  have hkept : (dirsOf (xs.append (.dirCons dname sub ys))).filter
        (fun d => !(should_ignore cfg.gitignore_spec (relDir ++ [d.1]) true))
      = (dirsOf (xs.append ys)).filter
        (fun d => !(should_ignore cfg.gitignore_spec (relDir ++ [d.1]) true)) := by
    rw [hdirs, hdirs2, List.filter_append, List.filter_append,
      List.filter_cons_of_neg]
    simp [hig]
  congr 1
  · rw [hkept]
  · rw [hfiles, hkept]
    congr 1
    rw [bumpIgnored_comp]
    congr 1
    have hle := List.length_filter_le
      (fun d => !(should_ignore cfg.gitignore_spec (relDir ++ [d.1]) true))
      (dirsOf (xs.append ys))
    rw [hdirs, hdirs2] at *
    simp only [List.length_append, List.length_cons] at *
    omega

/-- C3 witness: a gitignore rule `build/` prunes the `build` directory; the
pass equals the pass on the tree without it, plus one ignored count. -/
theorem c3_pruned_directory_witness :
    should_ignore exCfgGitignore.gitignore_spec (([] : List String) ++ ["build"]) true = true
    ∧ walkLoop exCfgGitignore
        [([], FSTree.leaf.append
            (.dirCons "build" (.fileCons ⟨"x.txt", "junk", false, false⟩ .leaf) .leaf))]
        initState
      = walkLoop exCfgGitignore [([], FSTree.leaf.append .leaf)] (bumpIgnored 1 initState) :=
  ⟨by decide,
   c3_pruned_directory exCfgGitignore [] "build"
     (.fileCons ⟨"x.txt", "junk", false, false⟩ .leaf) .leaf .leaf [] initState (by decide)⟩

/-- C4: the include decision is unconditionally true on an empty pattern
list, and otherwise true exactly when some glob pattern matches the base
name; on a tree with one `.py` and one `.md` file under `.include`
containing only `*.py`, the pass accepts exactly one file (one manifest
entry) and reports exactly one include-pattern exclusion. -/
theorem c4_include_decision :
    (∀ name, should_include [] name = true)
    ∧ (∀ (pats : List String) (name : String), pats ≠ [] →
        (should_include pats name = true ↔ ∃ p ∈ pats, fnmatch name p = true))
    ∧ (refresh_files exCfgIncludePy (.ok exTreePyMd none) []).1.md_entries = 1
    ∧ (refresh_files exCfgIncludePy (.ok exTreePyMd none) []).1.ignored_incl_count = 1
    ∧ (refresh_files exCfgIncludePy (.ok exTreePyMd none) []).1.ignored_git_count = 0 := by
  refine ⟨fun name => rfl, ?_, by decide, by decide, by decide⟩
  intro pats name hne
  have : pats.isEmpty = false := by
    cases pats with
    | nil => exact absurd rfl hne
    | cons a l => rfl
  simp [should_include, this, List.any_eq_true]

/-- C4 witness at `.include` = `*.py`. -/
theorem c4_include_decision_witness :
    (["*.py"] : List String) ≠ []
    ∧ (should_include ["*.py"] "main.py" = true
        ↔ ∃ p ∈ ["*.py"], fnmatch "main.py" p = true) :=
  ⟨by decide, c4_include_decision.2.1 ["*.py"] "main.py" (by decide)⟩

/-- C5: a pass is a function of the source tree and the options alone — the
staging contents it starts from are fully cleared first — so two
consecutive passes over an unchanged tree with unchanged options produce
identical staging output (the walk order of the model is deterministic by
construction). -/
theorem c5_idempotent_pass (cfg : RefreshConfig) (root : SourceRoot)
    (staging : List Artifact) :
    refresh_files cfg root ((refresh_files cfg root staging).1.staged)
      = refresh_files cfg root staging := by
  cases root with
  | unset => rfl
  | missing => rfl
  | ok children context => cases context <;> rfl

/-- C7: when the source root is missing or not a directory the pass aborts
with a user-visible error and the staging directory holds nothing beyond
the initial reset (the context-file copy step copies nothing, because no
file exists beneath a missing or non-directory root). -/
theorem c7_structural_abort (cfg : RefreshConfig) (staging : List Artifact) :
    refresh_files cfg .missing staging
        = (initState, some ("Error: Source directory not found: " ++ cfg.directory))
    ∧ (refresh_files cfg .missing staging).1.staged = [] :=
  ⟨rfl, rfl⟩

/-- Events on this path pass the `.git` / staging-name filter of
`on_any_event`. -/
theorem on_any_event_clean (h : ProjectChangeHandler) (t : Int) :
    on_any_event h ⟨false, "src/app.py", t⟩ = schedule_refresh h t := by
  have h1 : containsSub ".git".data "src/app.py".data = false := by decide
  have h2 : containsSub "progomatter_files".data "src/app.py".data = false := by decide
  simp [on_any_event, h1, h2]

theorem burst_aux (t0 : Int) (h0 : 0 < t0) :
    ∀ (ts : List Int) (k : Nat),
      (∀ t ∈ ts, t0 ≤ t ∧ t < t0 + debounce_delay) →
      (ts.map (fun t => (⟨false, "src/app.py", t⟩ : FSEvent))).foldl eventStep
          (⟨t0⟩, k)
        = (⟨t0⟩, k) := by
  intro ts
  induction ts with
  | nil => intro k _; rfl
  | cons t tl ih =>
    intro k hall
    have ht := hall t (by simp)
    have hcond : ¬(t - t0 ≥ debounce_delay ∨ t0 = 0) := by
      simp only [debounce_delay] at *
      omega
    have hstep : eventStep (⟨t0⟩, k) ⟨false, "src/app.py", t⟩ = (⟨t0⟩, k) := by
      simp [eventStep, on_any_event_clean, schedule_refresh, hcond]
    rw [List.map_cons, List.foldl_cons, hstep]
    exact ih k (fun x hx => hall x (List.mem_cons_of_mem t hx))

/-- C6: a change event is forwarded as a refresh signal only when at least
the debounce delay has elapsed since the last forwarded signal or none was
ever forwarded; consequently a burst of qualifying change events inside one
debounce window, the first at a positive wall-clock time, forwards exactly
one refresh signal. -/
theorem c6_debounce_policy :
    (∀ (h : ProjectChangeHandler) (e : FSEvent), (on_any_event h e).2 = true →
        e.time - h.last_event_time ≥ debounce_delay ∨ h.last_event_time = 0)
    ∧ (∀ (t0 : Int) (ts : List Int), 0 < t0 →
        (∀ t ∈ ts, t0 ≤ t ∧ t < t0 + debounce_delay) →
        (processEvents ⟨0⟩
            ((t0 :: ts).map (fun t => ⟨false, "src/app.py", t⟩))).2 = 1) := by
  constructor
  · intro h e hf
    unfold on_any_event at hf
    split at hf
    · unfold schedule_refresh at hf
      split at hf
      · rename_i hc; exact hc
      · simp at hf
    · simp at hf
  · intro t0 ts h0 hall
    unfold processEvents
    rw [List.map_cons, List.foldl_cons]
    have hfirst : eventStep (⟨0⟩, 0) ⟨false, "src/app.py", t0⟩ = (⟨t0⟩, 1) := by
      simp [eventStep, on_any_event_clean, schedule_refresh]
    rw [hfirst, burst_aux t0 h0 ts 1 hall]

/-- C6 witness: three events at the same positive second forward exactly one
signal. -/
theorem c6_debounce_policy_witness :
    (0 : Int) < 5 ∧ (∀ t ∈ ([5, 5] : List Int), 5 ≤ t ∧ t < 5 + debounce_delay)
    ∧ (processEvents ⟨0⟩
        (([5, 5, 5] : List Int).map (fun t => ⟨false, "src/app.py", t⟩))).2 = 1 :=
  ⟨by decide, by decide, c6_debounce_policy.2 5 [5, 5] (by decide) (by decide)⟩

/-- C9: a supported-extension file one of whose lines matches the
extension's extraction pattern yields a nonempty signature list; an
unsupported extension yields none; and in the manifest, a nonempty
signature list for a supported file puts at least one rendered signature
line into the markdown accumulator. -/
theorem c9_function_extraction :
    (∀ (name content : String) (l : List Char),
        l ∈ splitOnNl content.data →
        lineSig (lowerStr (pathSuffix name)) l ≠ none →
        extract_functions_from_file name content ≠ [])
    ∧ (∀ (name content : String),
        lowerStr (pathSuffix name) ∉ supportedExts →
        extract_functions_from_file name content = [])
    ∧ (∀ (cfg : RefreshConfig) (rel : String) (f : SrcFile) (st : RefreshState),
        cfg.opts.do_extract = true →
        supportedExts.contains (lowerStr (pathSuffix f.name)) = true →
        extract_functions_from_file f.name f.content ≠ [] →
        ∃ func ∈ extract_functions_from_file f.name f.content,
          ("- `" ++ func ++ "`") ∈ (mdSection cfg rel f st).paths_md_lines) := by
  refine ⟨?_, ?_, ?_⟩
  · intro name content l hl hsig
    by_cases h1 : lowerStr (pathSuffix name) = ".py"
    · rw [lineSig, if_pos h1] at hsig
      obtain ⟨s, hs⟩ := Option.ne_none_iff_exists'.mp hsig
      simp only [extract_functions_from_file, h1, if_pos]
      exact List.ne_nil_of_mem (List.mem_filterMap.mpr ⟨l, hl, hs⟩)
    · by_cases h2 : lowerStr (pathSuffix name) = ".gd"
      · rw [lineSig, if_neg h1, if_pos h2] at hsig
        obtain ⟨s, hs⟩ := Option.ne_none_iff_exists'.mp hsig
        simp only [extract_functions_from_file, h1, h2, if_neg, if_pos,
          reduceIte]
        exact List.ne_nil_of_mem (List.mem_filterMap.mpr ⟨l, hl, hs⟩)
      · by_cases h3 : lowerStr (pathSuffix name) = ".rs"
        · rw [lineSig, if_neg h1, if_neg h2, if_pos h3] at hsig
          obtain ⟨s, hs⟩ := Option.ne_none_iff_exists'.mp hsig
          simp only [extract_functions_from_file, h1, h2, h3, reduceIte]
          exact List.ne_nil_of_mem (List.mem_filterMap.mpr ⟨l, hl, hs⟩)
        · by_cases h4 : lowerStr (pathSuffix name) = ".gdshader"
          · rw [lineSig, if_neg h1, if_neg h2, if_neg h3, if_pos h4] at hsig
            obtain ⟨s, hs⟩ := Option.ne_none_iff_exists'.mp hsig
            simp only [extract_functions_from_file, h1, h2, h3, h4, reduceIte]
            exact List.ne_nil_of_mem (List.mem_filterMap.mpr ⟨l, hl, hs⟩)
          · rw [lineSig, if_neg h1, if_neg h2, if_neg h3, if_neg h4] at hsig
            exact absurd rfl hsig
  · intro name content hns
    simp only [supportedExts, List.mem_cons, List.mem_singleton] at hns
    push_neg at hns
    obtain ⟨h1, h2, h3, h4⟩ := hns
    simp [extract_functions_from_file, h1, h2, h3, h4]
  · intro cfg rel f st hex hsup hne
    obtain ⟨func, hfunc⟩ := List.exists_mem_of_ne_nil _ hne
    refine ⟨func, hfunc, ?_⟩
    have hie : (extract_functions_from_file f.name f.content).isEmpty = false := by
      cases hh : extract_functions_from_file f.name f.content with
      | nil => exact absurd hh hne
      | cons a l => rfl
    simp only [mdSection, hex, hsup, hie, Bool.and_self, if_true,
      Bool.false_eq_true, if_false]
    exact List.mem_append_left _
      (List.mem_append_right _ (List.mem_map_of_mem _ hfunc))

/-- C9 witness: `m.py` containing one `def` line yields a signature. -/
theorem c9_function_extraction_witness :
    ("def hello(x):".data ∈ splitOnNl ("def hello(x):" : String).data
      ∧ lineSig (lowerStr (pathSuffix "m.py")) "def hello(x):".data ≠ none)
    ∧ extract_functions_from_file "m.py" "def hello(x):" ≠ [] :=
  ⟨⟨by decide, by decide⟩,
   c9_function_extraction.1 "m.py" "def hello(x):" "def hello(x):".data
     (by decide) (by decide)⟩

/-! Staging-directory kind lemmas: a pass only ever stages context copies,
flattened copies, and the manifest document. -/

theorem stagePut_kinds (Q : ArtifactKind → Prop) (l : List Artifact) (a : Artifact)
    (hl : ∀ b ∈ l, Q b.kind) (ha : Q a.kind) :
    ∀ b ∈ stagePut l a, Q b.kind := by
  intro b hb
  unfold stagePut at hb
  split at hb
  · obtain ⟨x, hx, hbx⟩ := List.mem_map.mp hb
    split at hbx
    · rw [← hbx]; exact ha
    · rw [← hbx]; exact hl x hx
  · rcases List.mem_append.mp hb with h | h
    · exact hl b h
    · rw [List.mem_singleton.mp h]; exact ha

theorem stageDel_kinds (Q : ArtifactKind → Prop) (l : List Artifact) (n : String)
    (hl : ∀ b ∈ l, Q b.kind) : ∀ b ∈ stageDel l n, Q b.kind :=
  fun b hb => hl b (List.mem_of_mem_filter hb)

theorem stageRename_kinds (Q : ArtifactKind → Prop) (l : List Artifact)
    (o n : String) (hl : ∀ b ∈ l, Q b.kind) :
    ∀ b ∈ stageRename l o n, Q b.kind := by
  intro b hb
  unfold stageRename at hb
  split at hb
  · rename_i a ha
    have hal : a ∈ l := List.mem_of_find?_eq_some ha
    exact stagePut_kinds Q (stageDel l o) { a with name := n }
      (stageDel_kinds Q l o hl) (hl a hal) b hb
  · exact hl b hb

theorem copyStep_kinds (cfg : RefreshConfig) (relDir : List String) (f : SrcFile)
    (st : RefreshState) (h : stagedKindsOk st.staged) :
    stagedKindsOk (copyStep cfg relDir f st).staged := by
  by_cases hb1 : targetFlatName cfg.opts.do_convert relDir f.name ∈ st.files_in_temp
  case pos => simpa [copyStep, hb1] using h
  case neg =>
    cases hb2 : f.copyFails with
    | true =>
      simp [copyStep, hb1, hb2]
      exact stageDel_kinds allowedKind st.staged (uniqueFlatName relDir f.name) h
    | false =>
      cases hb3 : cfg.opts.do_convert with
      | false =>
        have hb1f : ¬(targetFlatName false relDir f.name ∈ st.files_in_temp) := by
          rw [← hb3]; exact hb1
        simp [copyStep, hb3, hb1f, hb2]
        exact stagePut_kinds allowedKind st.staged
          ⟨uniqueFlatName relDir f.name, .flatCopy, f.content⟩ h
          (Or.inr (Or.inr rfl))
      | true =>
        have hb1t : ¬(targetFlatName true relDir f.name ∈ st.files_in_temp) := by
          rw [← hb3]; exact hb1
        cases hb4 : f.renameFails with
        | true =>
          simp [copyStep, hb3, hb1t, hb2, hb4]
          exact stageDel_kinds allowedKind
            (stagePut st.staged
              ⟨uniqueFlatName relDir f.name, .flatCopy, f.content⟩)
            (uniqueFlatName relDir f.name)
            (stagePut_kinds allowedKind st.staged
              ⟨uniqueFlatName relDir f.name, .flatCopy, f.content⟩ h
              (Or.inr (Or.inr rfl)))
        | false =>
          simp [copyStep, hb3, hb1t, hb2, hb4]
          exact stageRename_kinds allowedKind
            (stagePut st.staged
              ⟨uniqueFlatName relDir f.name, .flatCopy, f.content⟩)
            (uniqueFlatName relDir f.name)
            (targetFlatName true relDir f.name)
            (stagePut_kinds allowedKind st.staged
              ⟨uniqueFlatName relDir f.name, .flatCopy, f.content⟩ h
              (Or.inr (Or.inr rfl)))

theorem processFile_kinds (cfg : RefreshConfig) (relDir : List String) (f : SrcFile)
    (st : RefreshState) (h : stagedKindsOk st.staged) :
    stagedKindsOk (processFile cfg relDir f st).staged := by
  cases hb1 : should_ignore cfg.gitignore_spec (relDir ++ [f.name]) false with
  | true => simpa [processFile, hb1] using h
  | false =>
    cases hb2 : (!cfg.include_patterns.isEmpty
        && !(should_include cfg.include_patterns f.name)) with
    | true => simpa [processFile, hb1, hb2] using h
    | false =>
      have hmd : stagedKindsOk
          (if cfg.opts.create_paths_md
            then mdSection cfg (String.intercalate "/" (relDir ++ [f.name])) f st
            else st).staged := by
        cases hmd1 : cfg.opts.create_paths_md with
        | false => simpa using h
        | true =>
          simp only [if_true]
          exact h
      cases hb3 : cfg.opts.copy_individual_files with
      | false => simpa [processFile, hb1, hb2, hb3] using hmd
      | true =>
        simp [processFile, hb1, hb2, hb3]
        have := copyStep_kinds cfg relDir f
          (if cfg.opts.create_paths_md
            then mdSection cfg (String.intercalate "/" (relDir ++ [f.name])) f st
            else st) hmd
        simpa using this

theorem refresh_files_kinds (cfg : RefreshConfig) (root : SourceRoot)
    (staging : List Artifact) :
    stagedKindsOk (refresh_files cfg root staging).1.staged := by
  have hwalk : ∀ (l : List (List String × FSTree)) (st : RefreshState),
      stagedKindsOk st.staged → stagedKindsOk (walkLoop cfg l st).staged :=
    walkLoop_preserve cfg (fun st => stagedKindsOk st.staged)
      (fun relDir f st h => processFile_kinds cfg relDir f st h)
      (fun _ _ h => h)
  cases root with
  | unset => intro a ha; exact absurd ha (List.not_mem_nil a)
  | missing => intro a ha; exact absurd ha (List.not_mem_nil a)
  | ok children context =>
    cases context with
    | none =>
      have h0 : stagedKindsOk
          (({ initState with staged := clear_temp_folder staging } : RefreshState).staged) :=
        fun a ha => absurd ha (List.not_mem_nil a)
      have hw := hwalk [([], children)]
        { initState with staged := clear_temp_folder staging } h0
      simp only [refresh_files]
      split
      · exact stagePut_kinds allowedKind _ _ hw (by exact Or.inr (Or.inl rfl))
      · exact hw
    | some ctx =>
      have h0 : stagedKindsOk
          (({ initState with
              staged := stagePut (clear_temp_folder staging)
                ⟨contextFileName, .contextCopy, ctx⟩ } : RefreshState).staged) :=
        stagePut_kinds allowedKind (clear_temp_folder staging)
          ⟨contextFileName, .contextCopy, ctx⟩
          (fun b hb => absurd hb (List.not_mem_nil b)) (Or.inl rfl)
      have hw := hwalk [([], children)]
        { initState with
            staged := stagePut (clear_temp_folder staging)
              ⟨contextFileName, .contextCopy, ctx⟩ } h0
      simp only [refresh_files]
      split
      · exact stagePut_kinds allowedKind _ _ hw (by exact Or.inr (Or.inl rfl))
      · exact hw

/-- C1 counterexample: on the specification's own example tree
(`src/main.py`, `src/util.py`) with every option enabled, the staging
directory receives no content-snapshot document and no structure-only
document (while the manifest is present), so the claimed artifact set — a
content snapshot, a structure-only document and a manifest, with the
structure mapping over `src` — does not occur. -/
theorem c1_counterexample :
    ¬ ((∃ a ∈ (refresh_files exCfgAll (.ok exTreeSrc none) []).1.staged,
          a.kind = ArtifactKind.snapshotDoc)
        ∧ (∃ a ∈ (refresh_files exCfgAll (.ok exTreeSrc none) []).1.staged,
          a.kind = ArtifactKind.structureDoc)
        ∧ (∃ a ∈ (refresh_files exCfgAll (.ok exTreeSrc none) []).1.staged,
          a.kind = ArtifactKind.manifestDoc)) := by
  decide

/-- C1 (amended): the artifacts a pass writes into staging are exactly
drawn from: a copy of the context file, the paths manifest document, and
flattened file copies, the set depending on the enabled options — no
content-snapshot and no structure-only document is generated; on the
example tree with all options enabled the staged set is exactly the two
converted flat copies plus the manifest. -/
theorem c1_generated_artifacts :
    (∀ (cfg : RefreshConfig) (root : SourceRoot) (staging : List Artifact),
        ∀ a ∈ (refresh_files cfg root staging).1.staged,
          a.kind = ArtifactKind.contextCopy ∨ a.kind = ArtifactKind.manifestDoc
            ∨ a.kind = ArtifactKind.flatCopy)
    ∧ stagedNames (refresh_files exCfgAll (.ok exTreeSrc none) []).1.staged
        = ["src-main.py.txt", "src-util.py.txt", mdFileName] :=
  ⟨fun cfg root staging => refresh_files_kinds cfg root staging, by decide⟩

/-- C1 witness: the context-copy artifact staged by a context-only pass is
of an allowed kind. -/
theorem c1_generated_artifacts_witness :
    ((⟨contextFileName, ArtifactKind.contextCopy, "ctx"⟩ : Artifact)
        ∈ (refresh_files exCfgAll (.ok .leaf (some "ctx")) []).1.staged)
    ∧ ((⟨contextFileName, ArtifactKind.contextCopy, "ctx"⟩ : Artifact).kind
          = ArtifactKind.contextCopy
        ∨ (⟨contextFileName, ArtifactKind.contextCopy, "ctx"⟩ : Artifact).kind
          = ArtifactKind.manifestDoc
        ∨ (⟨contextFileName, ArtifactKind.contextCopy, "ctx"⟩ : Artifact).kind
          = ArtifactKind.flatCopy) :=
  ⟨by decide,
   c1_generated_artifacts.1 exCfgAll (.ok .leaf (some "ctx")) [] _ (by decide)⟩

/-- C8: evaluation of the pass at the failing input.  With copying enabled
and files `good.txt` (copy succeeds) then `bad.txt` (`copy2` raises), the
pass materializes exactly one flattened copy but reports `copied_count = 0`:
the `except` branch executes `copied_count = max(0, copied_count - 1)`
although no increment happened for the failing file, revoking the count of
the previous successful copy.  The failure itself is logged, counted in
`read_error_count`, and only that file is skipped. -/
theorem c8_copied_counter_bug :
    (refresh_files exCfgCopy (.ok exTreeCopyError none) []).1.copied_count = 0
    ∧ flatNames (refresh_files exCfgCopy (.ok exTreeCopyError none) []).1.staged
        = ["good.txt"]
    ∧ (refresh_files exCfgCopy (.ok exTreeCopyError none) []).1.read_error_count = 1 := by
  decide

/-! Freshness lemmas about the staging map. -/

theorem stagePut_fresh (l : List Artifact) (a : Artifact)
    (h : ∀ b ∈ l, b.name ≠ a.name) : stagePut l a = l ++ [a] := by
  have hc : l.any (fun b => b.name == a.name) = false := by
    rw [List.any_eq_false]
    intro b hb
    simpa using h b hb
  unfold stagePut
  rw [hc]
  simp

theorem stageDel_fresh_noop (l : List Artifact) (n : String)
    (h : ∀ b ∈ l, b.name ≠ n) : stageDel l n = l := by
  unfold stageDel
  exact List.filter_eq_self.mpr (fun b hb => by simpa using h b hb)

theorem stageDel_name_ne (l : List Artifact) (n : String) :
    ∀ a ∈ stageDel l n, a.name ≠ n := by
  intro a ha
  simpa using (List.mem_filter.mp ha).2

theorem stagePut_self_mem (l : List Artifact) (a : Artifact) :
    a ∈ stagePut l a := by
  unfold stagePut
  split
  · rename_i hany
    obtain ⟨b, hb, hbe⟩ := List.any_eq_true.mp hany
    exact List.mem_map.mpr ⟨b, hb, by rw [if_pos hbe]⟩
  · exact List.mem_append_right l (List.mem_singleton.mpr rfl)

theorem stageDel_append_fresh (l : List Artifact) (a : Artifact)
    (h : ∀ b ∈ l, b.name ≠ a.name) : stageDel (l ++ [a]) a.name = l := by
  unfold stageDel
  rw [List.filter_append]
  have h1 : l.filter (fun b => b.name ≠ a.name) = l :=
    List.filter_eq_self.mpr (fun b hb => by simpa using h b hb)
  have h2 : [a].filter (fun b => b.name ≠ a.name) = [] := by simp
  rw [h1, h2, List.append_nil]

theorem find?_append_fresh (l : List Artifact) (a : Artifact)
    (h : ∀ b ∈ l, b.name ≠ a.name) :
    (l ++ [a]).find? (fun b => b.name == a.name) = some a := by
  induction l with
  | nil => simp [List.find?]
  | cons b tl ih =>
    have hb : (b.name == a.name) = false := by
      simpa using h b (List.mem_cons_self b tl)
    rw [List.cons_append, List.find?_cons_of_neg _ (by simp [hb])]
    exact ih (fun x hx => h x (List.mem_cons_of_mem b hx))

theorem stageRename_append_fresh (l : List Artifact) (a : Artifact) (tgt : String)
    (h : ∀ b ∈ l, b.name ≠ a.name) :
    stageRename (l ++ [a]) a.name tgt = stagePut l { a with name := tgt } := by
  unfold stageRename
  rw [find?_append_fresh l a h, stageDel_append_fresh l a h]

/-- C10: with copying enabled, a file whose `copy2` fails, or whose rename
to the `.txt` name fails under conversion, ends with the intermediate path
unlinked — afterwards no staged entry bears the intermediate name, and the
unlink removes whatever sat there, exactly `stageDel` — and the destination
name is not recorded in the per-pass written-name set; when nothing in
staging bore the intermediate name, the pass state is unchanged except the
error compensation; and a later file computing the same destination name is
then copied normally (recorded and staged) rather than reported as a
collision. -/
theorem c10_failed_copy_cleanup :
    (∀ (cfg : RefreshConfig) (relDir : List String) (f : SrcFile) (st : RefreshState),
        targetFlatName cfg.opts.do_convert relDir f.name ∉ st.files_in_temp →
        f.copyFails = true →
        (copyStep cfg relDir f st).files_in_temp = st.files_in_temp
        ∧ (copyStep cfg relDir f st).collision_skips = st.collision_skips
        ∧ (copyStep cfg relDir f st).staged
            = stageDel st.staged (uniqueFlatName relDir f.name)
        ∧ ∀ a ∈ (copyStep cfg relDir f st).staged,
            a.name ≠ uniqueFlatName relDir f.name)
    ∧ (∀ (cfg : RefreshConfig) (relDir : List String) (f : SrcFile) (st : RefreshState),
        targetFlatName cfg.opts.do_convert relDir f.name ∉ st.files_in_temp →
        f.copyFails = true →
        (∀ a ∈ st.staged, a.name ≠ uniqueFlatName relDir f.name) →
        copyStep cfg relDir f st
          = { st with read_error_count := st.read_error_count + 1,
                      copied_count := st.copied_count - 1 })
    ∧ (∀ (cfg : RefreshConfig) (relDir : List String) (f : SrcFile) (st : RefreshState),
        targetFlatName cfg.opts.do_convert relDir f.name ∉ st.files_in_temp →
        f.copyFails = false → f.renameFails = true → cfg.opts.do_convert = true →
        (∀ a ∈ st.staged, a.name ≠ uniqueFlatName relDir f.name) →
        copyStep cfg relDir f st = st)
    ∧ (∀ (cfg : RefreshConfig) (relDir : List String) (g : SrcFile) (st : RefreshState),
        targetFlatName cfg.opts.do_convert relDir g.name ∉ st.files_in_temp →
        g.copyFails = false →
        (cfg.opts.do_convert = true → g.renameFails = false) →
        (∀ a ∈ st.staged, a.name ≠ uniqueFlatName relDir g.name) →
        (copyStep cfg relDir g st).collision_skips = st.collision_skips
        ∧ (copyStep cfg relDir g st).files_in_temp
            = st.files_in_temp ++ [targetFlatName cfg.opts.do_convert relDir g.name]
        ∧ ∃ a ∈ (copyStep cfg relDir g st).staged,
            a.name = targetFlatName cfg.opts.do_convert relDir g.name
              ∧ a.content = g.content) := by
  refine ⟨?_, ?_, ?_, ?_⟩
  · intro cfg relDir f st h1 h2
    refine ⟨by simp [copyStep, h1, h2], by simp [copyStep, h1, h2],
      by simp [copyStep, h1, h2], ?_⟩
    intro a ha
    refine stageDel_name_ne st.staged (uniqueFlatName relDir f.name) a ?_
    simpa [copyStep, h1, h2] using ha
  · intro cfg relDir f st h1 h2 hfresh
    have hdel := stageDel_fresh_noop st.staged (uniqueFlatName relDir f.name) hfresh
    simp [copyStep, h1, h2, hdel]
  · intro cfg relDir f st h1 h2 h3 h4 hfresh
    have hput : stagePut st.staged
        ⟨uniqueFlatName relDir f.name, .flatCopy, f.content⟩
        = st.staged ++ [⟨uniqueFlatName relDir f.name, .flatCopy, f.content⟩] :=
      stagePut_fresh st.staged _ (fun b hb => hfresh b hb)
    have hdel := stageDel_append_fresh st.staged
      ⟨uniqueFlatName relDir f.name, .flatCopy, f.content⟩
      (fun b hb => hfresh b hb)
    have hb1t : ¬(targetFlatName true relDir f.name ∈ st.files_in_temp) := by
      rw [← h4]; exact h1
    simp [copyStep, h4, hb1t, h2, h3, hput, hdel]
  · intro cfg relDir g st h1 h2 h3 hfresh
    cases hcv : cfg.opts.do_convert with
    | false =>
      have hb1f : ¬(targetFlatName false relDir g.name ∈ st.files_in_temp) := by
        rw [← hcv]; exact h1
      have hb1u : ¬(uniqueFlatName relDir g.name ∈ st.files_in_temp) := by
        simpa [targetFlatName] using hb1f
      refine ⟨by simp [copyStep, hcv, hb1f, hb1u, h2], ?_, ?_⟩
      · simp [copyStep, hcv, hb1f, hb1u, h2, targetFlatName]
      · refine ⟨⟨uniqueFlatName relDir g.name, .flatCopy, g.content⟩, ?_, ?_, rfl⟩
        · simp [copyStep, hcv, hb1f, hb1u, h2]
          exact stagePut_self_mem st.staged _
        · simp [targetFlatName, hcv]
    | true =>
      have hrn := h3 hcv
      have hb1t : ¬(targetFlatName true relDir g.name ∈ st.files_in_temp) := by
        rw [← hcv]; exact h1
      have hput : stagePut st.staged
          ⟨uniqueFlatName relDir g.name, .flatCopy, g.content⟩
          = st.staged ++ [⟨uniqueFlatName relDir g.name, .flatCopy, g.content⟩] :=
        stagePut_fresh st.staged _ (fun b hb => hfresh b hb)
      have hren := stageRename_append_fresh st.staged
        ⟨uniqueFlatName relDir g.name, .flatCopy, g.content⟩
        (targetFlatName true relDir g.name)
        (fun b hb => hfresh b hb)
      refine ⟨by simp [copyStep, hcv, hb1t, h2, hrn], ?_, ?_⟩
      · simp [copyStep, hcv, hb1t, h2, hrn]
      · refine ⟨⟨targetFlatName true relDir g.name, .flatCopy, g.content⟩, ?_, ?_, rfl⟩
        · simp [copyStep, hcv, hb1t, h2, hrn, hput, hren]
          exact stagePut_self_mem st.staged _
        · simp [hcv]

/-- C10 witness: a failing copy at the initial state counts a read error,
records nothing, and stages nothing. -/
theorem c10_failed_copy_cleanup_witness :
    (targetFlatName exCfgCopy.opts.do_convert [] "bad.txt" ∉ initState.files_in_temp)
    ∧ (∀ a ∈ initState.staged, a.name ≠ uniqueFlatName [] "bad.txt")
    ∧ copyStep exCfgCopy [] ⟨"bad.txt", "b", true, false⟩ initState
        = { initState with read_error_count := initState.read_error_count + 1,
                           copied_count := initState.copied_count - 1 } :=
  ⟨by decide, by decide,
   c10_failed_copy_cleanup.2.1 exCfgCopy [] ⟨"bad.txt", "b", true, false⟩ initState
     (by decide) (by decide) (by decide)⟩

/-! Per-name-uniqueness invariant of conversion-free copy passes. -/

theorem flatNames_sublist_names (l : List Artifact) :
    (flatNames l).Sublist (stagedNames l) :=
  List.Sublist.map Artifact.name (List.filter_sublist l)

theorem stagedNames_stagePut (l : List Artifact) (a : Artifact) :
    stagedNames (stagePut l a) = stagedNames l
    ∨ (stagedNames (stagePut l a) = stagedNames l ++ [a.name]
        ∧ a.name ∉ stagedNames l) := by
  unfold stagePut
  split
  · left
    unfold stagedNames
    rw [List.map_map]
    apply List.map_congr_left
    intro b hb
    simp only [Function.comp_apply]
    split
    · rename_i hbe; exact (eq_of_beq hbe).symm
    · rfl
  · right
    rename_i hany
    refine ⟨by simp [stagedNames], ?_⟩
    intro hmem
    obtain ⟨b, hb, hbn⟩ := List.mem_map.mp hmem
    exact hany (List.any_eq_true.mpr ⟨b, hb, by simp [hbn]⟩)

theorem stagePut_mem_of_kind_ne (l : List Artifact) (a b : Artifact)
    (hk : b.kind ≠ a.kind) (hb : b ∈ stagePut l a) : b ∈ l := by
  unfold stagePut at hb
  split at hb
  · obtain ⟨x, hx, hbx⟩ := List.mem_map.mp hb
    split at hbx
    · exact absurd (congrArg Artifact.kind hbx).symm hk
    · rw [← hbx]; exact hx
  · rcases List.mem_append.mp hb with h | h
    · exact h
    · rw [List.mem_singleton.mp h] at hk
      exact absurd rfl hk

theorem copyStep_flat_inv (cfg : RefreshConfig) (relDir : List String) (f : SrcFile)
    (st : RefreshState) (hcv : cfg.opts.do_convert = false)
    (h1 : stagedNames st.staged = st.files_in_temp)
    (h2 : st.files_in_temp.Nodup)
    (h3 : ∀ a ∈ st.staged, a.kind = ArtifactKind.flatCopy) :
    stagedNames (copyStep cfg relDir f st).staged
        = (copyStep cfg relDir f st).files_in_temp
      ∧ (copyStep cfg relDir f st).files_in_temp.Nodup
      ∧ ∀ a ∈ (copyStep cfg relDir f st).staged, a.kind = ArtifactKind.flatCopy := by
  by_cases hb1 : targetFlatName cfg.opts.do_convert relDir f.name ∈ st.files_in_temp
  · refine ⟨by simpa [copyStep, hb1] using h1, by simpa [copyStep, hb1] using h2, ?_⟩
    intro a ha
    exact h3 a (by simpa [copyStep, hb1] using ha)
  · cases hb2 : f.copyFails with
    | true =>
      have hb1f : ¬(targetFlatName false relDir f.name ∈ st.files_in_temp) := by
        rw [← hcv]; exact hb1
      have hb1u : uniqueFlatName relDir f.name ∉ st.files_in_temp := by
        simpa [targetFlatName] using hb1f
      have hfresh : ∀ b ∈ st.staged, b.name ≠ uniqueFlatName relDir f.name := by
        intro b hb hc
        exact hb1u (by rw [← h1]; exact hc ▸ List.mem_map_of_mem Artifact.name hb)
      have hdel := stageDel_fresh_noop st.staged (uniqueFlatName relDir f.name) hfresh
      refine ⟨by simpa [copyStep, hb1, hb2, hdel] using h1,
        by simpa [copyStep, hb1, hb2] using h2, ?_⟩
      intro a ha
      exact h3 a (by simpa [copyStep, hb1, hb2, hdel] using ha)
    | false =>
      have hb1f : ¬(targetFlatName false relDir f.name ∈ st.files_in_temp) := by
        rw [← hcv]; exact hb1
      have hb1u : uniqueFlatName relDir f.name ∉ st.files_in_temp := by
        simpa [targetFlatName] using hb1f
      have hfresh : ∀ b ∈ st.staged, b.name ≠ uniqueFlatName relDir f.name := by
        intro b hb hc
        exact hb1u (by rw [← h1]; exact hc ▸ List.mem_map_of_mem Artifact.name hb)
      have hput := stagePut_fresh st.staged
        ⟨uniqueFlatName relDir f.name, .flatCopy, f.content⟩ hfresh
      have h1m : List.map Artifact.name st.staged = st.files_in_temp := h1
      refine ⟨?_, ?_, ?_⟩
      · simp [copyStep, hcv, hb2, hb1f, hput, stagedNames, h1m]
      · have hdisj : st.files_in_temp.Disjoint [uniqueFlatName relDir f.name] :=
          fun x hx hx' => hb1u (by rwa [List.mem_singleton.mp hx'] at hx)
        have hnd : (st.files_in_temp ++ [uniqueFlatName relDir f.name]).Nodup :=
          List.Nodup.append h2 (List.nodup_singleton _) hdisj
        simpa [copyStep, hcv, hb2, hb1f] using hnd
      · intro a ha
        have ha' : a ∈ st.staged
            ++ [(⟨uniqueFlatName relDir f.name, .flatCopy, f.content⟩ : Artifact)] := by
          simpa [copyStep, hcv, hb2, hb1f, hput] using ha
        rcases List.mem_append.mp ha' with hmem | hmem
        · exact h3 a hmem
        · rw [List.mem_singleton.mp hmem]

theorem processFile_flat_inv (cfg : RefreshConfig) (relDir : List String)
    (f : SrcFile) (st : RefreshState) (hcv : cfg.opts.do_convert = false)
    (h : stagedNames st.staged = st.files_in_temp ∧ st.files_in_temp.Nodup
          ∧ ∀ a ∈ st.staged, a.kind = ArtifactKind.flatCopy) :
    stagedNames (processFile cfg relDir f st).staged
        = (processFile cfg relDir f st).files_in_temp
      ∧ (processFile cfg relDir f st).files_in_temp.Nodup
      ∧ ∀ a ∈ (processFile cfg relDir f st).staged, a.kind = ArtifactKind.flatCopy := by
  obtain ⟨h1, h2, h3⟩ := h
  cases hbi : should_ignore cfg.gitignore_spec (relDir ++ [f.name]) false with
  | true =>
    refine ⟨by simpa [processFile, hbi] using h1, by simpa [processFile, hbi] using h2, ?_⟩
    intro a ha
    exact h3 a (by simpa [processFile, hbi] using ha)
  | false =>
    cases hbc : (!cfg.include_patterns.isEmpty
        && !(should_include cfg.include_patterns f.name)) with
    | true =>
      refine ⟨by simpa [processFile, hbi, hbc] using h1,
        by simpa [processFile, hbi, hbc] using h2, ?_⟩
      intro a ha
      exact h3 a (by simpa [processFile, hbi, hbc] using ha)
    | false =>
      have hmd1 : stagedNames
          (if cfg.opts.create_paths_md
            then mdSection cfg (String.intercalate "/" (relDir ++ [f.name])) f st
            else st).staged
          = (if cfg.opts.create_paths_md
            then mdSection cfg (String.intercalate "/" (relDir ++ [f.name])) f st
            else st).files_in_temp := by
        cases cfg.opts.create_paths_md
        · simpa using h1
        · simpa using h1
      have hmd2 : (if cfg.opts.create_paths_md
            then mdSection cfg (String.intercalate "/" (relDir ++ [f.name])) f st
            else st).files_in_temp.Nodup := by
        cases cfg.opts.create_paths_md
        · simpa using h2
        · simpa using h2
      have hmd3 : ∀ a ∈ (if cfg.opts.create_paths_md
            then mdSection cfg (String.intercalate "/" (relDir ++ [f.name])) f st
            else st).staged, a.kind = ArtifactKind.flatCopy := by
        cases cfg.opts.create_paths_md
        · simpa using h3
        · simpa using h3
      cases hbcp : cfg.opts.copy_individual_files with
      | false =>
        refine ⟨by simpa [processFile, hbi, hbc, hbcp] using hmd1,
          by simpa [processFile, hbi, hbc, hbcp] using hmd2, ?_⟩
        intro a ha
        exact hmd3 a (by simpa [processFile, hbi, hbc, hbcp] using ha)
      | true =>
        have := copyStep_flat_inv cfg relDir f
          (if cfg.opts.create_paths_md
            then mdSection cfg (String.intercalate "/" (relDir ++ [f.name])) f st
            else st) hcv hmd1 hmd2 hmd3
        refine ⟨by simpa [processFile, hbi, hbc, hbcp] using this.1,
          by simpa [processFile, hbi, hbc, hbcp] using this.2.1, ?_⟩
        intro a ha
        exact this.2.2 a (by simpa [processFile, hbi, hbc, hbcp] using ha)

theorem refresh_flat_uniqueness (cfg : RefreshConfig) (children : FSTree)
    (staging : List Artifact) (hcv : cfg.opts.convert_copied_files = false) :
    (refresh_files cfg (.ok children none) staging).1.files_in_temp.Nodup
    ∧ (flatNames (refresh_files cfg (.ok children none) staging).1.staged).Nodup
    ∧ ∀ n ∈ flatNames (refresh_files cfg (.ok children none) staging).1.staged,
        n ∈ (refresh_files cfg (.ok children none) staging).1.files_in_temp := by
  have hcv' : cfg.opts.do_convert = false := by
    simp [Options.do_convert, hcv]
  have hwalk := walkLoop_preserve cfg
    (fun st => stagedNames st.staged = st.files_in_temp ∧ st.files_in_temp.Nodup
      ∧ ∀ a ∈ st.staged, a.kind = ArtifactKind.flatCopy)
    (fun relDir f st h => processFile_flat_inv cfg relDir f st hcv' h)
    (fun k st h => h)
    [([], children)]
    { initState with staged := clear_temp_folder staging }
    ⟨rfl, List.nodup_nil, fun a ha => absurd ha (List.not_mem_nil a)⟩
  obtain ⟨w1, w2, w3⟩ := hwalk
  simp only [refresh_files]
  split
  · refine ⟨w1 ▸ w2, ?_, ?_⟩
    · have hnames : (stagedNames (stagePut
          (walkLoop cfg [([], children)]
            { initState with staged := clear_temp_folder staging }).staged
          ⟨mdFileName, .manifestDoc,
            mdDocument cfg (walkLoop cfg [([], children)]
              { initState with staged := clear_temp_folder staging }).paths_md_lines⟩)).Nodup := by
        rcases stagedNames_stagePut
            (walkLoop cfg [([], children)]
              { initState with staged := clear_temp_folder staging }).staged
            ⟨mdFileName, .manifestDoc,
              mdDocument cfg (walkLoop cfg [([], children)]
                { initState with staged := clear_temp_folder staging }).paths_md_lines⟩
          with hcase | ⟨hcase, hnot⟩
        · rw [hcase, w1]; exact w2
        · rw [hcase, w1]
          rw [w1] at hnot
          exact List.Nodup.append w2 (List.nodup_singleton _)
            (fun x hx hx' => hnot (by rwa [List.mem_singleton.mp hx'] at hx))
      exact List.Nodup.sublist (flatNames_sublist_names _) hnames
    · intro n hn
      obtain ⟨b, hbf, hbn⟩ := List.mem_map.mp hn
      have hbmem := List.mem_of_mem_filter hbf
      have hbkind : b.kind = ArtifactKind.flatCopy := by
        simpa using (List.mem_filter.mp hbf).2
      have hbW : b ∈ (walkLoop cfg [([], children)]
          { initState with staged := clear_temp_folder staging }).staged :=
        stagePut_mem_of_kind_ne _ _ b (by simp [hbkind]) hbmem
      rw [← w1]
      exact hbn ▸ List.mem_map_of_mem Artifact.name hbW
  · refine ⟨w1 ▸ w2, ?_, ?_⟩
    · exact List.Nodup.sublist (flatNames_sublist_names _) (by rw [w1]; exact w2)
    · intro n hn
      obtain ⟨b, hbf, hbn⟩ := List.mem_map.mp hn
      have hbW := List.mem_of_mem_filter hbf
      rw [← w1]
      exact hbn ▸ List.mem_map_of_mem Artifact.name hbW

/-- C2 counterexample: with conversion enabled, for the accepted pair `a-b`
and `a/b` — whose computed destination names are both `a-b.txt` — the pass
counts exactly one collision, yet at its end no copy named `a-b.txt` is
materialized at all: the root file `a-b.txt` was accepted with destination
`a-b.txt.txt`, and its intermediate (pre-rename) copy, also named
`a-b.txt`, silently overwrote the earlier copy before being renamed away.
This falsifies "exactly one copy is materialized ... the earlier copy is
left untouched, never overwritten" as stated. -/
theorem c2_counterexample :
    (refresh_files exCfgCopyConvert (.ok exTreeRenameClash none) []).1.collision_skips = 1
    ∧ ((refresh_files exCfgCopyConvert (.ok exTreeRenameClash none) []).1.staged.filter
        (fun a => a.name == "a-b.txt")).length = 0 := by
  decide

/-- C2 (amended): a file whose computed destination name was already
produced in the pass is skipped, with only the collision counter
incremented, leaving the staging directory and the written-name set
untouched; with conversion disabled, the recorded destination names and the
materialized flat copies are collision-free — at most one copy per computed
name, never overwritten; the spec's `a/x.txt`, `b/x.txt` example yields the
two distinct names `a-x.txt`, `b-x.txt` and no collision, and two files
collapsing to `a-x.txt` yield exactly one copy, which keeps the first
file's content, and one counted collision.  (With conversion enabled, a
later file's intermediate pre-rename copy can coincide with an earlier
file's final name and overwrite it — see the counterexample.) -/
theorem c2_collision_policy :
    (∀ (cfg : RefreshConfig) (relDir : List String) (f : SrcFile) (st : RefreshState),
        targetFlatName cfg.opts.do_convert relDir f.name ∈ st.files_in_temp →
        copyStep cfg relDir f st = { st with collision_skips := st.collision_skips + 1 })
    ∧ (∀ (cfg : RefreshConfig) (children : FSTree) (staging : List Artifact),
        cfg.opts.convert_copied_files = false →
        (refresh_files cfg (.ok children none) staging).1.files_in_temp.Nodup
        ∧ (flatNames (refresh_files cfg (.ok children none) staging).1.staged).Nodup
        ∧ ∀ n ∈ flatNames (refresh_files cfg (.ok children none) staging).1.staged,
            n ∈ (refresh_files cfg (.ok children none) staging).1.files_in_temp)
    ∧ ((refresh_files exCfgCopy (.ok exTreeDistinct none) []).1.files_in_temp
          = ["a-x.txt", "b-x.txt"]
        ∧ (refresh_files exCfgCopy (.ok exTreeDistinct none) []).1.collision_skips = 0)
    ∧ ((refresh_files exCfgCopy (.ok exTreeSameName none) []).1.staged
          = [⟨"a-x.txt", .flatCopy, "first"⟩]
        ∧ (refresh_files exCfgCopy (.ok exTreeSameName none) []).1.collision_skips = 1
        ∧ (refresh_files exCfgCopy (.ok exTreeSameName none) []).1.copied_count = 1) := by
  refine ⟨?_, ?_, by decide, by decide⟩
  · intro cfg relDir f st hmem
    simp [copyStep, hmem]
  · intro cfg children staging hcv
    exact refresh_flat_uniqueness cfg children staging hcv

/-- C2 witness: a concrete collision skip, and the uniqueness conclusions on
the same-name fixture. -/
theorem c2_collision_policy_witness :
    (targetFlatName exCfgCopy.opts.do_convert ["a"] "x.txt"
        ∈ ({ initState with files_in_temp := ["a-x.txt"] } : RefreshState).files_in_temp)
    ∧ copyStep exCfgCopy ["a"] ⟨"x.txt", "second", false, false⟩
        { initState with files_in_temp := ["a-x.txt"] }
      = { ({ initState with files_in_temp := ["a-x.txt"] } : RefreshState) with
          collision_skips :=
            ({ initState with files_in_temp := ["a-x.txt"] } : RefreshState).collision_skips + 1 }
    ∧ (exCfgCopy.opts.convert_copied_files = false
        ∧ (refresh_files exCfgCopy (.ok exTreeSameName none) []).1.files_in_temp.Nodup) :=
  ⟨by decide,
   c2_collision_policy.1 exCfgCopy ["a"] ⟨"x.txt", "second", false, false⟩
     { initState with files_in_temp := ["a-x.txt"] } (by decide),
   by decide,
   (c2_collision_policy.2.1 exCfgCopy exTreeSameName [] (by decide)).1⟩

end Progomatter
